import Mathlib

/-!
# Verification of the elastica cheat-sheet builder and its query interface

Shallow embedding of the grid-continuation solver (`cheat_sheet.py`), the
nearest-neighbor query interface (`env.py`, `elasticEnv.py`) and the persisted
artifact of the repository.  Real-valued sample arrays produced by the numeric
BVP solver are represented by rational lists; the solver itself (scipy
`solve_bvp`) is an external numerical black box and enters the model as an
oracle delivering per-index results.
-/

namespace Elastica

/-- Embedding of `np.linspace a b n`: `n` uniformly spaced samples from `a` to `b`
inclusive, sample `i` being `a + i*(b-a)/(n-1)`.  For `n = 1` numpy returns
`[a]`, which the formula also yields since `i = 0`. -/
def linspaceQ (a b : ℚ) (n : ℕ) : List ℚ :=
  (List.range n).map fun (i : ℕ) => a + (i : ℚ) * (b - a) / ((n : ℚ) - 1)

/-- Embedding of `grid_points` of `cheat_sheet.py`, parametric in the bounds and the per-axis
resolution `W`.  The source builds `H, V = np.meshgrid(h_values, v_values)` and
`grid_points = np.column_stack((H.ravel(), V.ravel()))`, so the flat point at
index `k` is `(h_values[k % W], v_values[k / W])`. -/
def grid_pointsP (hmin hmax vmin vmax : ℚ) (W : ℕ) : List (ℚ × ℚ) :=
  (List.range (W * W)).map fun k =>
    ((linspaceQ hmin hmax W).getD (k % W) 0, (linspaceQ vmin vmax W).getD (k / W) 0)

/-- Number of grid points per axis (`num_points = 80` in `cheat_sheet.py`). -/
def num_points : ℕ := 80

/-- The concrete design lattice of `cheat_sheet.py`:
`h ∈ [-32, 0.5]`, `v ∈ [-17, 17]`, `80` points per axis. -/
def grid_points : List (ℚ × ℚ) := grid_pointsP (-32) (1/2) (-17) 17 num_points

/-- Squared Euclidean distance between two load pairs. -/
def sqDist (p q : ℚ × ℚ) : ℚ := (p.1 - q.1) ^ 2 + (p.2 - q.2) ^ 2

/-- Index of the first minimum of a list of rationals (`0` on the empty
list).  This is the index-selection behavior shared by `np.argmin` and the
spec's reading of the k-d tree: the minimum value, ties broken by the lowest
index. -/
def idxOfMin : List ℚ → ℕ
  | [] => 0
  | [_] => 0
  | x :: y :: rest =>
    let j := idxOfMin (y :: rest)
    if x ≤ (y :: rest).getD j 0 then 0 else j + 1

/-- Modelled from the spec: the repository's Spatial Index is scipy's `cKDTree`
(built in `cheat_sheet.py` line 189, queried in `env.py` line 66 and
`elasticEnv.py` line 29), library code whose internals are not part of this
repository.  Per the spec it returns, for a query `(h, v)`, the index of the
single nearest GridPoint by Euclidean distance, ties broken by the lowest
index; nearest-by-Euclidean-distance equals nearest-by-squared-distance. -/
def kdQuery (pts : List (ℚ × ℚ)) (q : ℚ × ℚ) : ℕ :=
  idxOfMin (pts.map fun p => sqDist p q)

/-- Python dictionary read: `d[k]` yields the stored value, or raises an
uncaught `KeyError` when the key is absent (modelled as `Except.error ()`). -/
def dictGet (d : ℕ → Option (List ℚ)) (k : ℕ) : Except Unit (List ℚ) :=
  match d k with
  | some v => Except.ok v
  | none => Except.error ()

/-- Embedding of `find_nearest_solution` of `elasticEnv.py` (lines 28-30): queries the k-d
tree for the index nearest `(h, v)` over the pickled `grid_points`, then reads
`theta_values[index]` and `theta_prime_values[index]` by plain dictionary
access.  The dictionaries hold entries only for solved indices; there is no
`try`/`except` in the function or in its caller `elastica_solve`, so a missing
key is an uncaught `KeyError`. -/
def find_nearest_solution (theta_values theta_prime_values : ℕ → Option (List ℚ))
    (h v : ℚ) : Except Unit (List ℚ × List ℚ) := do
  let index := kdQuery grid_points (h, v)
  let t ← dictGet theta_values index
  let tp ← dictGet theta_prime_values index
  return (t, tp)

/-- Embedding of `np.cumsum` on a flat array: running partial sums. -/
def npCumsumAux (acc : ℚ) : List ℚ → List ℚ
  | [] => []
  | x :: xs => (acc + x) :: npCumsumAux (acc + x) xs

def npCumsum (l : List ℚ) : List ℚ := npCumsumAux 0 l

/-- Embedding of `np.trapezoid(ys, x=xs)`: trapezoidal-rule integral
`Σ (x_(k+1) - x_k) * (y_k + y_(k+1)) / 2`. -/
def npTrapezoid : List ℚ → List ℚ → ℚ
  | x1 :: x2 :: xs, y1 :: y2 :: ys =>
    (x2 - x1) * (y1 + y2) / 2 + npTrapezoid (x2 :: xs) (y2 :: ys)
  | _, _ => 0

/-- The 500 arclength stations `s = np.linspace(0, l, 500)` of
`cheat_sheet.py` with rod length `l = 1`. -/
def sSamples : List ℚ := linspaceQ 0 1 500

/-- The tip coordinate recorded by `cheat_sheet.py` (lines 93-98 for the seed,
112-117 inside `solve_for_index`): `x = np.cumsum(np.trapezoid(ys, x=s))` —
the trapezoid integral is a scalar, so `np.cumsum` yields the one-element
array `[integral]` — and the recorded tip is `x[-1]`.  Here `ys` stands for
the sampled `np.cos(theta)` (for `x_tip`) or `np.sin(theta)` (for `y_tip`)
array delivered by the numeric solver. -/
def recordedTip (ys : List ℚ) : ℚ :=
  (npCumsum [npTrapezoid sSamples ys]).getLastD 0

/-- The tip formula in the words of claim C9: the cumulative sum of the
samples scaled by the arclength step, evaluated at the final station. -/
def specTip (ys : List ℚ) (ds : ℚ) : ℚ := (npCumsum ys).getLastD 0 * ds

/-- The 8-connected neighbor direction offsets of `cheat_sheet.py`
(`adjacent_indices`). -/
def adjacent_indices : List (ℤ × ℤ) :=
  [(-1, 0), (1, 0), (0, -1), (0, 1), (-1, -1), (-1, 1), (1, -1), (1, 1)]

/-- Embedding of `get_adjacent_unsolved_points` of `cheat_sheet.py` (lines 53-62): the
in-bounds 8-connected lattice neighbors of `index` that are not in
`solved_points`.  Python `//` and `%` on the nonnegative `index` agree with
integer Euclidean division. -/
def get_adjacent_unsolved_points (index : ℕ) (solved_points : Finset ℕ) :
    List ℕ :=
  let row : ℤ := (index : ℤ) / num_points
  let col : ℤ := (index : ℤ) % num_points
  adjacent_indices.filterMap fun d =>
    let adj_row := row + d.1
    let adj_col := col + d.2
    if 0 ≤ adj_row ∧ adj_row < num_points ∧ 0 ≤ adj_col ∧ adj_col < num_points
    then
      let adj_index := (adj_row * num_points + adj_col).toNat
      if adj_index ∈ solved_points then none else some adj_index
    else none

/-- Output returned by one worker call of `solve_for_index` on convergence:
the two solution sample arrays `sol.sol(s)[0]`, `sol.sol(s)[1]` and the
sampled `np.cos(theta)`, `np.sin(theta)` arrays from which the worker computes
the tip values it hands back to the coordinator.  A convergence failure is the
`none` result (`solve_for_index` returns `None`). -/
structure SolveOutput where
  theta : List ℚ
  theta_prime : List ℚ
  y1 : List ℚ
  y2 : List ℚ

/-- The shared build state of `cheat_sheet.py`: the solved set and list, the
two shape dictionaries (kept as their chronological write sequences, so that
the write-once property is expressible; the dictionary contents are the
induced key-to-value map), and the two tip lists. -/
structure SchedState where
  solved_points : Finset ℕ
  solved_points_list : List ℕ
  theta_log : List (ℕ × List ℚ)
  theta_prime_log : List (ℕ × List ℚ)
  x_tip : List ℚ
  y_tip : List ℚ

/-- The coordinator's handling of one future's result (`cheat_sheet.py` lines
130-142): a `None` result is skipped; a successful result is recorded in every
shared container. -/
def applyResult (st : SchedState) (i : ℕ) : Option SolveOutput → SchedState
  | none => st
  | some r =>
    { solved_points := insert i st.solved_points
      solved_points_list := st.solved_points_list ++ [i]
      theta_log := st.theta_log ++ [(i, r.theta)]
      theta_prime_log := st.theta_prime_log ++ [(i, r.theta_prime)]
      x_tip := st.x_tip ++ [recordedTip r.y1]
      y_tip := st.y_tip ++ [recordedTip r.y2] }

/-- One scheduler iteration's fan-out/join: the batch of indices dispatched to
the worker pool is fixed before any result is recorded, and the results are
folded into the shared state in submission order. -/
def processBatch (st : SchedState) (dispatched : List ℕ)
    (res : ℕ → Option SolveOutput) : SchedState :=
  dispatched.foldl (fun s i => applyResult s i (res i)) st

/-- Indices of a dispatched batch whose solver call converged. -/
def successes (dispatched : List ℕ) (res : ℕ → Option SolveOutput) : List ℕ :=
  dispatched.filter fun i => (res i).isSome

/-- One iteration of the `while len(solved_points) < len(grid_points)` loop of
`cheat_sheet.py` (lines 120-142), with the two sources of nondeterminism made
explicit: `src` is the randomly chosen solved source index and `res` is the
convergence outcome of the numeric BVP solver for each dispatched neighbor.
An iteration whose source has no unsolved neighbor dispatches the empty batch
and leaves the state unchanged (the `continue` branch). -/
def SchedStep (src : ℕ) (res : ℕ → Option SolveOutput)
    (σ σ' : SchedState) : Prop :=
  σ.solved_points.card < grid_points.length ∧
  src ∈ σ.solved_points ∧
  σ' = processBatch σ (get_adjacent_unsolved_points src σ.solved_points) res

def Step (σ σ' : SchedState) : Prop := ∃ src res, SchedStep src res σ σ'

/-- States reachable by the scheduler loop. -/
def Reach : SchedState → SchedState → Prop := Relation.ReflTransGen Step

/-- Embedding of `closest_index` of `cheat_sheet.py` (line 69):
`np.argmin(np.linalg.norm(grid_points, axis=1))`, the first index of the grid
point nearest the origin; `np.argmin` of the norms and of the squared norms
agree since the square root is monotone and both break ties at the first
minimum. -/
def closest_index : ℕ := idxOfMin (grid_points.map fun p => p.1 ^ 2 + p.2 ^ 2)

/-- The state after the seed solve (`cheat_sheet.py` lines 68-102): when the
seed converges (`bl` true) every container holds exactly the seed's data,
otherwise all containers are empty. -/
def initState (seed : Option SolveOutput) : SchedState :=
  match seed with
  | some r =>
    { solved_points := {closest_index}
      solved_points_list := [closest_index]
      theta_log := [(closest_index, r.theta)]
      theta_prime_log := [(closest_index, r.theta_prime)]
      x_tip := [recordedTip r.y1]
      y_tip := [recordedTip r.y2] }
  | none => ⟨∅, [], [], [], [], []⟩

/-- Invariant maintained by the scheduler loop: each shape dictionary is
written at most once per index, its key set is exactly the solved set, and
every solved index is a valid grid index. -/
def Inv (σ : SchedState) : Prop :=
  (σ.theta_log.map Prod.fst).Nodup ∧
  (σ.theta_prime_log.map Prod.fst).Nodup ∧
  (∀ i, i ∈ σ.theta_log.map Prod.fst ↔ i ∈ σ.solved_points) ∧
  (∀ i, i ∈ σ.theta_prime_log.map Prod.fst ↔ i ∈ σ.solved_points) ∧
  ∀ i ∈ σ.solved_points, i < grid_points.length

/-- A convergence-failure seed used to instantiate theorems at a concrete
build run (all-empty sample arrays). -/
def seed0 : SolveOutput := ⟨[], [], [], []⟩

/-- A concrete shared build state with the single solved index `0`. -/
def stateA : SchedState := ⟨{0}, [0], [], [], [], []⟩

/-- Result of a scipy `solve_bvp` call as seen by the runtime query path: the
convergence flag `success` and the solution sample rows `sol.sol(s)[0]` and
`sol.sol(s)[1]`.  Whether the flag is ever read is exactly what claim C10 is
about. -/
structure BvpResult where
  success : Bool
  theta : List ℚ
  theta_prime : List ℚ

/-- Embedding of the `Elastica_env.elastica` post-processing (`env.py` lines 81-96): after the
online `solve_bvp` call at the exact `(h, v)`, it reads `sol.sol(s)`
unconditionally — `sol.success` is never inspected — and builds
`x = np.cumsum(cos theta) * (l/500)`, `y = np.cumsum(sin theta) * (l/500)`,
the energy `e`, and the returned 6-tuple
`(x, y, theta'(0), theta'(l), theta(l), e)`.  `cosTheta`/`sinTheta` stand for
numpy's pointwise transcendental `np.cos`/`np.sin` on the samples. -/
def elastica (cosTheta sinTheta : ℚ → ℚ) (h v : ℚ) (sol : BvpResult) :
    List ℚ × List ℚ × ℚ × ℚ × ℚ × ℚ :=
  let theta := sol.theta
  let dtheta_ds := sol.theta_prime
  let y1 := theta.map cosTheta
  let y2 := theta.map sinTheta
  let y3 := dtheta_ds.map fun t => t ^ 2
  let x := (npCumsum y1).map fun t => t * (1 / 500)
  let y := (npCumsum y2).map fun t => t * (1 / 500)
  let e := (1 / 2) * y3.sum * (1 / 500) - v * y2.sum * (1 / 500)
      + h * (y1.map fun t => 1 - t).sum * (1 / 500)
  (x, y, dtheta_ds.headD 0, dtheta_ds.getLastD 0, theta.getLastD 0, e)

/-- Embedding of `elastica_solve` of `elasticEnv.py` (lines 32-36): warm-starts from the
cheat sheet, runs `solve_bvp`, and returns `sol.sol(s)` (cast to `float32`)
unconditionally — the result object's `success` flag is never read, so the
caller receives an ordinary-looking sample array even when the online solve
did not converge. -/
def elastica_solve (solver : ℚ → ℚ → BvpResult) (h v : ℚ) :
    List ℚ × List ℚ :=
  let sol := solver h v
  (sol.theta, sol.theta_prime)

/-- The CheatSheet artifact (`cheat_sheet_data` in `cheat_sheet.py` lines
182-190): the grid coordinates, and the two shape maps as (index, samples)
association lists.  The spatial index is determined by `grid_points` (env.py
line 39 rebuilds the k-d tree from the reloaded `grid_points`), so it needs no
separate serialization in the model. -/
structure CheatSheetData where
  grid_points : List (ℚ × ℚ)
  theta_values : List (ℕ × List ℚ)
  theta_prime_values : List (ℕ × List ℚ)

/-- Modelled from the spec: the Persistence Layer is `pickle.dump`/
`pickle.load` (cheat_sheet.py lines 193-194, env.py lines 35-36), library code
not part of this repository.  Per the spec's contract it serializes
`{grid_points, shapes, spatial_index}` to a single flat artifact and
deserializes it back losslessly; the model below is a concrete length-prefixed
flat encoding over the stored numerals. -/
def encSeq {α : Type} (enc : α → List ℚ) : List α → List ℚ
  | [] => []
  | a :: as => enc a ++ encSeq enc as

def encListQ (xs : List ℚ) : List ℚ := (xs.length : ℚ) :: xs

def decListQ (l : List ℚ) : Option (List ℚ × List ℚ) :=
  match l with
  | [] => none
  | n :: rest =>
    let k := n.num.toNat
    if rest.length < k then none else some (rest.take k, rest.drop k)

def encPoint (p : ℚ × ℚ) : List ℚ := [p.1, p.2]

def decPoint : List ℚ → Option ((ℚ × ℚ) × List ℚ)
  | a :: b :: rest => some ((a, b), rest)
  | _ => none

def encEntry (e : ℕ × List ℚ) : List ℚ := (e.1 : ℚ) :: encListQ e.2

def decEntry : List ℚ → Option ((ℕ × List ℚ) × List ℚ)
  | [] => none
  | n :: rest =>
    match decListQ rest with
    | none => none
    | some (xs, rest') => some ((n.num.toNat, xs), rest')

def decCount {α : Type} (dec : List ℚ → Option (α × List ℚ)) :
    ℕ → List ℚ → Option (List α × List ℚ)
  | 0, l => some ([], l)
  | k + 1, l =>
    match dec l with
    | none => none
    | some (a, l') =>
      match decCount dec k l' with
      | none => none
      | some (as, l'') => some (a :: as, l'')

def encCounted {α : Type} (enc : α → List ℚ) (as : List α) : List ℚ :=
  (as.length : ℚ) :: encSeq enc as

def decCounted {α : Type} (dec : List ℚ → Option (α × List ℚ)) :
    List ℚ → Option (List α × List ℚ)
  | [] => none
  | n :: rest => decCount dec n.num.toNat rest

def encCheatSheet (d : CheatSheetData) : List ℚ :=
  encCounted encPoint d.grid_points ++ encCounted encEntry d.theta_values
    ++ encCounted encEntry d.theta_prime_values

def decCheatSheet (l : List ℚ) : Option CheatSheetData :=
  match decCounted decPoint l with
  | none => none
  | some (g, l1) =>
    match decCounted decEntry l1 with
    | none => none
    | some (t, l2) =>
      match decCounted decEntry l2 with
      | none => none
      | some (tp, l3) => if l3 = [] then some ⟨g, t, tp⟩ else none

theorem linspaceQ_length (a b : ℚ) (n : ℕ) : (linspaceQ a b n).length = n := by
  unfold linspaceQ
  rw [List.length_map, List.length_range]

theorem grid_pointsP_length (hmin hmax vmin vmax : ℚ) (W : ℕ) :
    (grid_pointsP hmin hmax vmin vmax W).length = W * W := by
  simp [grid_pointsP]

theorem linspaceQ_getD (a b : ℚ) (n : ℕ) (i : ℕ) (hi : i < n) :
    (linspaceQ a b n).getD i 0 = a + (i : ℚ) * (b - a) / ((n : ℚ) - 1) := by
  unfold linspaceQ
  rw [List.getD_eq_getElem?_getD, List.getElem?_map, List.getElem?_range hi]
  rfl

theorem grid_pointsP_getD (hmin hmax vmin vmax : ℚ) (W : ℕ) (k : ℕ)
    (hk : k < W * W) :
    (grid_pointsP hmin hmax vmin vmax W).getD k (0, 0) =
      ((linspaceQ hmin hmax W).getD (k % W) 0,
       (linspaceQ vmin vmax W).getD (k / W) 0) := by
  unfold grid_pointsP
  rw [List.getD_eq_getElem?_getD, List.getElem?_map, List.getElem?_range hk]
  rfl

/-- Uniform samples of a nondegenerate interval are pairwise distinct. -/
theorem linspaceQ_getD_injOn (a b : ℚ) (hab : a < b) (n : ℕ) {i j : ℕ}
    (hi : i < n) (hj : j < n)
    (h : (linspaceQ a b n).getD i 0 = (linspaceQ a b n).getD j 0) : i = j := by
  rw [linspaceQ_getD a b n i hi, linspaceQ_getD a b n j hj] at h
  by_cases hn : n = 1
  · omega
  · have hn2 : 2 ≤ n := by omega
    have hden : (0 : ℚ) < (n : ℚ) - 1 := by
      have : (2 : ℚ) ≤ (n : ℚ) := by exact_mod_cast hn2
      linarith
    have hba : b - a ≠ 0 := by intro hc; linarith
    field_simp at h
    rcases h with h | h
    · exact_mod_cast h
    · exact absurd h hba

/-- With nondegenerate bounds on both axes the lattice has no duplicate
coordinate pair. -/
theorem grid_pointsP_nodup (hmin hmax vmin vmax : ℚ) (W : ℕ)
    (hh : hmin < hmax) (hv : vmin < vmax) :
    (grid_pointsP hmin hmax vmin vmax W).Nodup := by
  unfold grid_pointsP
  apply List.Nodup.map_on _ (List.nodup_range _)
  intro k hk k' hk' heq
  rw [List.mem_range] at hk hk'
  have hW : 0 < W := by
    rcases Nat.eq_zero_or_pos W with h0 | h0
    · subst h0; simp at hk
    · exact h0
  have h1 : (linspaceQ hmin hmax W).getD (k % W) 0 =
      (linspaceQ hmin hmax W).getD (k' % W) 0 := congrArg Prod.fst heq
  have h2 : (linspaceQ vmin vmax W).getD (k / W) 0 =
      (linspaceQ vmin vmax W).getD (k' / W) 0 := congrArg Prod.snd heq
  have hm : k % W = k' % W :=
    linspaceQ_getD_injOn hmin hmax hh W (Nat.mod_lt _ hW) (Nat.mod_lt _ hW) h1
  have hd : k / W = k' / W :=
    linspaceQ_getD_injOn vmin vmax hv W
      (Nat.div_lt_of_lt_mul hk) (Nat.div_lt_of_lt_mul hk') h2
  calc k = W * (k / W) + k % W := (Nat.div_add_mod k W).symm
    _ = W * (k' / W) + k' % W := by rw [hm, hd]
    _ = k' := Nat.div_add_mod k' W

theorem grid_points_length : grid_points.length = 6400 := by
  simp [grid_points, grid_pointsP_length, num_points]

theorem grid_points_nodup : grid_points.Nodup :=
  grid_pointsP_nodup _ _ _ _ _ (by norm_num) (by norm_num)

theorem sqDist_nonneg (p q : ℚ × ℚ) : 0 ≤ sqDist p q := by
  unfold sqDist
  positivity

theorem sqDist_eq_zero_iff (p q : ℚ × ℚ) : sqDist p q = 0 ↔ p = q := by
  unfold sqDist
  constructor
  · intro h
    have h1 : (p.1 - q.1) ^ 2 = 0 ∧ (p.2 - q.2) ^ 2 = 0 := by
      constructor <;> nlinarith [sq_nonneg (p.1 - q.1), sq_nonneg (p.2 - q.2)]
    have e1 : p.1 = q.1 := by nlinarith [h1.1]
    have e2 : p.2 = q.2 := by nlinarith [h1.2]
    exact Prod.ext e1 e2
  · intro h
    subst h
    ring

theorem idxOfMin_lt_length : ∀ (l : List ℚ), l ≠ [] → idxOfMin l < l.length
  | [], h => absurd rfl h
  | [_], _ => by simp [idxOfMin]
  | x :: y :: rest, _ => by
    have ih := idxOfMin_lt_length (y :: rest) (by simp)
    unfold idxOfMin
    dsimp only
    split
    · simp
    · simpa using ih

theorem idxOfMin_le : ∀ (l : List ℚ) (j : ℕ), j < l.length →
    l.getD (idxOfMin l) 0 ≤ l.getD j 0
  | [], j, hj => by simp at hj
  | [_], j, hj => by
    have hj0 : j = 0 := by
      simp at hj
      omega
    subst hj0
    simp [idxOfMin]
  | x :: y :: rest, j, hj => by
    have ih := fun (j' : ℕ) (hj' : j' < (y :: rest).length) =>
      idxOfMin_le (y :: rest) j' hj'
    have hlt := idxOfMin_lt_length (y :: rest) (by simp)
    unfold idxOfMin
    dsimp only
    split
    · rename_i hle
      cases j with
      | zero => simp
      | succ j' =>
        have := ih j' (by simpa using hj)
        calc (x :: y :: rest).getD 0 0 = x := rfl
          _ ≤ (y :: rest).getD (idxOfMin (y :: rest)) 0 := hle
          _ ≤ (y :: rest).getD j' 0 := this
          _ = (x :: y :: rest).getD (j' + 1) 0 := rfl
    · rename_i hgt
      cases j with
      | zero =>
        push_neg at hgt
        calc (x :: y :: rest).getD (idxOfMin (y :: rest) + 1) 0
            = (y :: rest).getD (idxOfMin (y :: rest)) 0 := rfl
          _ ≤ x := le_of_lt hgt
          _ = (x :: y :: rest).getD 0 0 := rfl
      | succ j' =>
        have := ih j' (by simpa using hj)
        calc (x :: y :: rest).getD (idxOfMin (y :: rest) + 1) 0
            = (y :: rest).getD (idxOfMin (y :: rest)) 0 := rfl
          _ ≤ (y :: rest).getD j' 0 := this
          _ = (x :: y :: rest).getD (j' + 1) 0 := rfl

theorem idxOfMin_first : ∀ (l : List ℚ) (j : ℕ), j < l.length →
    l.getD j 0 ≤ l.getD (idxOfMin l) 0 → idxOfMin l ≤ j
  | [], j, hj, _ => by simp at hj
  | [_], j, hj, _ => by simp [idxOfMin]
  | x :: y :: rest, j, hj, hle => by
    have ih := fun (j' : ℕ) (hj' : j' < (y :: rest).length) =>
      idxOfMin_first (y :: rest) j' hj'
    unfold idxOfMin at hle ⊢
    dsimp only at hle ⊢
    split
    · exact Nat.zero_le _
    · rename_i hgt
      push_neg at hgt
      cases j with
      | zero =>
        exfalso
        have : (x :: y :: rest).getD 0 0 = x := rfl
        rw [this] at hle
        have h2 : (x :: y :: rest).getD (idxOfMin (y :: rest) + 1) 0
            = (y :: rest).getD (idxOfMin (y :: rest)) 0 := rfl
        rw [if_neg (not_le.mpr hgt)] at hle
        rw [h2] at hle
        exact absurd hle (not_le.mpr hgt)
      | succ j' =>
        rw [if_neg (not_le.mpr hgt)] at hle
        have h2 : (x :: y :: rest).getD (idxOfMin (y :: rest) + 1) 0
            = (y :: rest).getD (idxOfMin (y :: rest)) 0 := rfl
        have h3 : (x :: y :: rest).getD (j' + 1) 0 = (y :: rest).getD j' 0 := rfl
        rw [h2, h3] at hle
        have := ih j' (by simpa using hj) hle
        omega

theorem getD_map_sqDist (pts : List (ℚ × ℚ)) (q : ℚ × ℚ) (j : ℕ)
    (hj : j < pts.length) :
    (pts.map fun p => sqDist p q).getD j 0 = sqDist (pts.getD j (0, 0)) q := by
  rw [List.getD_eq_getElem?_getD, List.getElem?_map,
    List.getD_eq_getElem?_getD, List.getElem?_eq_getElem hj]
  rfl

theorem kdQuery_lt_length (pts : List (ℚ × ℚ)) (q : ℚ × ℚ) (h : pts ≠ []) :
    kdQuery pts q < pts.length := by
  have := idxOfMin_lt_length (pts.map fun p => sqDist p q)
    (by simpa using h)
  simpa [kdQuery] using this

theorem kdQuery_min (pts : List (ℚ × ℚ)) (q : ℚ × ℚ) (j : ℕ)
    (hj : j < pts.length) :
    sqDist (pts.getD (kdQuery pts q) (0, 0)) q ≤ sqDist (pts.getD j (0, 0)) q := by
  have hne : pts ≠ [] := by
    intro h; subst h; simp at hj
  have hlt := kdQuery_lt_length pts q hne
  have h1 := idxOfMin_le (pts.map fun p => sqDist p q) j (by simpa using hj)
  rw [getD_map_sqDist pts q j hj] at h1
  have h3 := getD_map_sqDist pts q (kdQuery pts q) hlt
  unfold kdQuery at h3
  rw [h3] at h1
  exact h1

theorem kdQuery_tiebreak (pts : List (ℚ × ℚ)) (q : ℚ × ℚ) (j : ℕ)
    (hj : j < pts.length)
    (heq : sqDist (pts.getD j (0, 0)) q = sqDist (pts.getD (kdQuery pts q) (0, 0)) q) :
    kdQuery pts q ≤ j := by
  have hne : pts ≠ [] := by
    intro h; subst h; simp at hj
  have hlt := kdQuery_lt_length pts q hne
  apply idxOfMin_first (pts.map fun p => sqDist p q) j (by simpa using hj)
  rw [getD_map_sqDist pts q j hj]
  have h3 := getD_map_sqDist pts q (kdQuery pts q) hlt
  unfold kdQuery at h3
  rw [h3]
  exact le_of_eq heq

/-- Querying the index with the exact coordinate of a grid point of a
duplicate-free lattice returns that point's index. -/
theorem kdQuery_self (pts : List (ℚ × ℚ)) (hnd : pts.Nodup) (k : ℕ)
    (hk : k < pts.length) : kdQuery pts (pts.getD k (0, 0)) = k := by
  set q := pts.getD k (0, 0) with hq
  have hne : pts ≠ [] := by
    intro h; subst h; simp at hk
  have hlt := kdQuery_lt_length pts q hne
  have hmin := kdQuery_min pts q k hk
  have hzero : sqDist (pts.getD k (0, 0)) q = 0 := by
    rw [hq, sqDist_eq_zero_iff]
  have hge := sqDist_nonneg (pts.getD (kdQuery pts q) (0, 0)) q
  have heq0 : sqDist (pts.getD (kdQuery pts q) (0, 0)) q = 0 := by
    rw [hzero] at hmin
    linarith
  have hpteq : pts.getD (kdQuery pts q) (0, 0) = pts.getD k (0, 0) := by
    rw [(sqDist_eq_zero_iff _ _).mp heq0, hq, (sqDist_eq_zero_iff _ _).mp hzero]
  have : pts.get ⟨kdQuery pts q, hlt⟩ = pts.get ⟨k, hk⟩ := by
    rwa [List.getD_eq_getElem pts _ hlt, List.getD_eq_getElem pts _ hk] at hpteq
  have := List.Nodup.get_inj_iff hnd |>.mp this
  exact congrArg Fin.val this

/-- C1: For every query coordinate pair `(h, v)`, the Spatial Index query over
the full set of `W*W` GridPoint coordinates returns the index of the single
nearest GridPoint by Euclidean distance, with ties broken by lowest index; in
particular, querying with the exact coordinate of GridPoint 37 returns
index 37. -/
theorem claim_C1 (q : ℚ × ℚ) (j : ℕ) (hj : j < grid_points.length) :
    kdQuery grid_points q < grid_points.length ∧
    sqDist (grid_points.getD (kdQuery grid_points q) (0, 0)) q ≤
      sqDist (grid_points.getD j (0, 0)) q ∧
    (sqDist (grid_points.getD j (0, 0)) q =
       sqDist (grid_points.getD (kdQuery grid_points q) (0, 0)) q →
     kdQuery grid_points q ≤ j) ∧
    kdQuery grid_points (grid_points.getD 37 (0, 0)) = 37 := by
  have hne : grid_points ≠ [] := by
    intro h
    have := grid_points_length
    rw [h] at this
    simp at this
  refine ⟨kdQuery_lt_length grid_points q hne, kdQuery_min grid_points q j hj,
    kdQuery_tiebreak grid_points q j hj, ?_⟩
  exact kdQuery_self grid_points grid_points_nodup 37
    (by rw [grid_points_length]; norm_num)

theorem claim_C1_witness :
    0 < grid_points.length ∧
    (kdQuery grid_points ((0 : ℚ), (0 : ℚ)) < grid_points.length ∧
     sqDist (grid_points.getD (kdQuery grid_points (0, 0)) (0, 0)) (0, 0) ≤
       sqDist (grid_points.getD 0 (0, 0)) (0, 0) ∧
     (sqDist (grid_points.getD 0 (0, 0)) (0, 0) =
        sqDist (grid_points.getD (kdQuery grid_points (0, 0)) (0, 0)) (0, 0) →
      kdQuery grid_points (0, 0) ≤ 0) ∧
     kdQuery grid_points (grid_points.getD 37 (0, 0)) = 37) :=
  ⟨by rw [grid_points_length]; norm_num,
   claim_C1 (0, 0) 0 (by rw [grid_points_length]; norm_num)⟩

/-- C7 as stated quantifies over all inclusive bounds; with the degenerate
bound `h_min = h_max = 0` (and `W = 2`) the lattice contains the coordinate
pair `(0, 0)` twice, so the produced pairs are not distinct. -/
theorem claim_C7_cex : ¬ (grid_pointsP 0 0 0 1 2).Nodup := by
  intro hnd
  have hlen : (grid_pointsP 0 0 0 1 2).length = 4 := by
    rw [grid_pointsP_length]
  have hv : (grid_pointsP 0 0 0 1 2).getD 0 (0, 0) =
      (grid_pointsP 0 0 0 1 2).getD 1 (0, 0) := by
    rw [grid_pointsP_getD 0 0 0 1 2 0 (by norm_num),
      grid_pointsP_getD 0 0 0 1 2 1 (by norm_num)]
    show ((linspaceQ 0 0 2).getD 0 0, (linspaceQ 0 1 2).getD 0 0) =
      ((linspaceQ 0 0 2).getD 1 0, (linspaceQ 0 1 2).getD 0 0)
    rw [linspaceQ_getD 0 0 2 0 (by norm_num), linspaceQ_getD 0 0 2 1 (by norm_num)]
    norm_num [Prod.mk.injEq]
  have h0 : (0 : ℕ) < (grid_pointsP 0 0 0 1 2).length := by omega
  have h1 : (1 : ℕ) < (grid_pointsP 0 0 0 1 2).length := by omega
  have hg : (grid_pointsP 0 0 0 1 2).get ⟨0, h0⟩ =
      (grid_pointsP 0 0 0 1 2).get ⟨1, h1⟩ := by
    rwa [List.getD_eq_getElem _ _ h0, List.getD_eq_getElem _ _ h1] at hv
  have := List.Nodup.get_inj_iff hnd |>.mp hg
  have := congrArg Fin.val this
  simp at this

/-- C7 (amended): for all inclusive bounds with `h_min < h_max` and
`v_min < v_max` and any resolution `W`, the Parameter Grid produces exactly
`W*W` pairwise-distinct coordinate pairs, laid out row-major over the
Cartesian product of `W` uniformly spaced samples per axis (the point at flat
index `k` combines lattice row `k / W` on the `v` axis with lattice column
`k % W` on the `h` axis), deterministically (it is a pure function). -/
theorem claim_C7 (hmin hmax vmin vmax : ℚ) (W : ℕ)
    (hh : hmin < hmax) (hv : vmin < vmax) :
    (grid_pointsP hmin hmax vmin vmax W).length = W * W ∧
    (grid_pointsP hmin hmax vmin vmax W).Nodup ∧
    ∀ k, k < W * W →
      (grid_pointsP hmin hmax vmin vmax W).getD k (0, 0) =
        ((linspaceQ hmin hmax W).getD (k % W) 0,
         (linspaceQ vmin vmax W).getD (k / W) 0) :=
  ⟨grid_pointsP_length hmin hmax vmin vmax W,
   grid_pointsP_nodup hmin hmax vmin vmax W hh hv,
   fun k hk => grid_pointsP_getD hmin hmax vmin vmax W k hk⟩

theorem claim_C7_witness :
    (0 : ℚ) < 1 ∧
    ((grid_pointsP 0 1 0 1 2).length = 2 * 2 ∧
     (grid_pointsP 0 1 0 1 2).Nodup ∧
     ∀ k, k < 2 * 2 →
       (grid_pointsP 0 1 0 1 2).getD k (0, 0) =
         ((linspaceQ 0 1 2).getD (k % 2) 0, (linspaceQ 0 1 2).getD (k / 2) 0)) :=
  ⟨by norm_num, claim_C7 0 1 0 1 2 (by norm_num) (by norm_num)⟩

/-- C2 as stated promises a defined fallback (a nearby solved index's Shape,
or a handled "no guess available" signal) and "never fails with an unhandled
error"; but on a store in which the nearest GridPoint has no Shape the
dictionary access raises an uncaught `KeyError` (`Except.error ()` here) — no
fallback shape, no handled signal. -/
theorem claim_C2_cex :
    find_nearest_solution (fun _ => none) (fun _ => none) 0 0 =
      Except.error () := rfl

/-- C2 (amended): `find_nearest_solution (h, v)` returns the Shape pair of the
GridPoint nearest `(h, v)` when both maps contain that index; when the nearest
index has no stored Shape it fails with an uncaught `KeyError` — there is no
fallback to another index and no handled no-guess signal. -/
theorem claim_C2 (theta_values theta_prime_values : ℕ → Option (List ℚ))
    (h v : ℚ) :
    (∀ t tp, theta_values (kdQuery grid_points (h, v)) = some t →
       theta_prime_values (kdQuery grid_points (h, v)) = some tp →
       find_nearest_solution theta_values theta_prime_values h v =
         Except.ok (t, tp)) ∧
    (theta_values (kdQuery grid_points (h, v)) = none →
       find_nearest_solution theta_values theta_prime_values h v =
         Except.error ()) := by
  constructor
  · intro t tp ht htp
    simp only [find_nearest_solution, dictGet]
    rw [ht, htp]
    rfl
  · intro ht
    simp only [find_nearest_solution, dictGet]
    rw [ht]
    rfl

theorem claim_C2_witness :
    find_nearest_solution (fun _ => some [0]) (fun _ => some [1]) 0 0 =
      Except.ok ([0], [1]) :=
  (claim_C2 (fun _ => some [0]) (fun _ => some [1]) 0 0).1 [0] [1] rfl rfl

theorem grid_points_ne_nil : grid_points ≠ [] := by
  intro h
  have := grid_points_length
  rw [h] at this
  simp at this

theorem closest_index_lt : closest_index < grid_points.length := by
  have := idxOfMin_lt_length (grid_points.map fun p => p.1 ^ 2 + p.2 ^ 2)
    (by simpa using grid_points_ne_nil)
  simpa [closest_index] using this

theorem adjacent_mem_elim {index : ℕ} {solved_points : Finset ℕ} {i : ℕ}
    (h : i ∈ get_adjacent_unsolved_points index solved_points) :
    i ∉ solved_points ∧ i < grid_points.length := by
  unfold get_adjacent_unsolved_points at h
  rw [List.mem_filterMap] at h
  obtain ⟨d, _, hd⟩ := h
  dsimp only at hd
  split at hd
  · rename_i hbounds
    split at hd
    · exact absurd hd (by simp)
    · rename_i hns
      obtain ⟨h1, h2, h3, h4⟩ := hbounds
      have hi := Option.some.inj hd
      subst hi
      refine ⟨hns, ?_⟩
      rw [grid_points_length]
      have hnp : (num_points : ℤ) = 80 := by norm_num [num_points]
      rw [hnp] at h1 h2 h3 h4 ⊢
      omega
  · exact absurd hd (by simp)

theorem adjacent_nodup (index : ℕ) (solved_points : Finset ℕ) :
    (get_adjacent_unsolved_points index solved_points).Nodup := by
  unfold get_adjacent_unsolved_points
  apply List.Nodup.filterMap
  · intro d d' i hd hd'
    dsimp only at hd hd'
    rw [Option.mem_def] at hd hd'
    split at hd
    · rename_i hb
      split at hd
      · exact absurd hd (by simp)
      · split at hd'
        · rename_i hb'
          split at hd'
          · exact absurd hd' (by simp)
          · obtain ⟨a1, a2, a3, a4⟩ := hb
            obtain ⟨b1, b2, b3, b4⟩ := hb'
            have e1 := Option.some.inj hd
            have e2 := Option.some.inj hd'
            have hnp : (num_points : ℤ) = 80 := by norm_num [num_points]
            rw [hnp] at a1 a2 a3 a4 b1 b2 b3 b4 e1 e2
            have hd1 : d.1 = d'.1 ∧ d.2 = d'.2 := by constructor <;> omega
            exact Prod.ext hd1.1 hd1.2
        · exact absurd hd' (by simp)
    · exact absurd hd (by simp)
  · decide

theorem processBatch_fields (res : ℕ → Option SolveOutput) :
    ∀ (ds : List ℕ) (σ : SchedState),
    (processBatch σ ds res).solved_points
        = σ.solved_points ∪ (successes ds res).toFinset ∧
    (processBatch σ ds res).solved_points_list
        = σ.solved_points_list ++ successes ds res ∧
    (processBatch σ ds res).theta_log
        = σ.theta_log ++ ds.filterMap (fun i => (res i).map fun r => (i, r.theta)) ∧
    (processBatch σ ds res).theta_prime_log
        = σ.theta_prime_log
            ++ ds.filterMap (fun i => (res i).map fun r => (i, r.theta_prime)) ∧
    (processBatch σ ds res).x_tip
        = σ.x_tip ++ ds.filterMap (fun i => (res i).map fun r => recordedTip r.y1) ∧
    (processBatch σ ds res).y_tip
        = σ.y_tip ++ ds.filterMap (fun i => (res i).map fun r => recordedTip r.y2) := by
  intro ds
  induction ds with
  | nil =>
    intro σ
    refine ⟨?_, ?_, ?_, ?_, ?_, ?_⟩ <;> simp [processBatch, successes]
  | cons i ds ih =>
    intro σ
    obtain ⟨e1, e2, e3, e4, e5, e6⟩ := ih (applyResult σ i (res i))
    have hstep : processBatch σ (i :: ds) res
        = processBatch (applyResult σ i (res i)) ds res := rfl
    cases hres : res i with
    | none =>
      rw [hres] at e1 e2 e3 e4 e5 e6
      have ha : applyResult σ i none = σ := rfl
      rw [ha] at e1 e2 e3 e4 e5 e6
      have hsucc : successes (i :: ds) res = successes ds res := by
        simp [successes, List.filter_cons, hres]
      refine ⟨?_, ?_, ?_, ?_, ?_, ?_⟩ <;>
        (rw [hstep, hres, ha]
         first
        | (rw [hsucc]; exact e1)
        | (rw [hsucc]; exact e2)
        | (rw [e3]; simp [List.filterMap_cons, hres])
        | (rw [e4]; simp [List.filterMap_cons, hres])
        | (rw [e5]; simp [List.filterMap_cons, hres])
        | (rw [e6]; simp [List.filterMap_cons, hres]))
    | some r =>
      rw [hres] at e1 e2 e3 e4 e5 e6
      have hsucc : successes (i :: ds) res = i :: successes ds res := by
        simp [successes, List.filter_cons, hres]
      refine ⟨?_, ?_, ?_, ?_, ?_, ?_⟩ <;>
        (rw [hstep, hres]
         first
        | (rw [e1, hsucc]
           simp [applyResult, Finset.insert_union, Finset.union_insert])
        | (rw [e2, hsucc]
           simp [applyResult, List.append_assoc])
        | (rw [e3]
           simp [applyResult, List.filterMap_cons, hres, List.append_assoc])
        | (rw [e4]
           simp [applyResult, List.filterMap_cons, hres, List.append_assoc])
        | (rw [e5]
           simp [applyResult, List.filterMap_cons, hres, List.append_assoc])
        | (rw [e6]
           simp [applyResult, List.filterMap_cons, hres, List.append_assoc]))

theorem processBatch_allFail (σ : SchedState) (ds : List ℕ)
    (res : ℕ → Option SolveOutput) (h : ∀ i ∈ ds, res i = none) :
    processBatch σ ds res = σ := by
  induction ds generalizing σ with
  | nil => rfl
  | cons i ds ih =>
    have hi : res i = none := h i (by simp)
    have hstep : processBatch σ (i :: ds) res
        = processBatch (applyResult σ i (res i)) ds res := rfl
    rw [hstep, hi]
    exact ih σ fun j hj => h j (by simp [hj])

theorem keys_filterMap (res : ℕ → Option SolveOutput)
    (f : ℕ → SolveOutput → ℕ × List ℚ) (hf : ∀ i r, (f i r).1 = i) :
    ∀ ds : List ℕ,
    ((ds.filterMap fun i => (res i).map fun r => f i r).map Prod.fst)
      = successes ds res := by
  intro ds
  induction ds with
  | nil => rfl
  | cons i ds ih =>
    cases hres : res i with
    | none =>
      simp [List.filterMap_cons, hres, successes, List.filter_cons] at ih ⊢
      exact ih
    | some r =>
      simp [List.filterMap_cons, hres, successes, List.filter_cons, hf] at ih ⊢
      exact ih

theorem successes_subset {ds : List ℕ} {res : ℕ → Option SolveOutput} {i : ℕ}
    (h : i ∈ successes ds res) : i ∈ ds ∧ (res i).isSome := by
  unfold successes at h
  rw [List.mem_filter] at h
  exact ⟨h.1, by simpa using h.2⟩

theorem Inv_init (seed : Option SolveOutput) : Inv (initState seed) := by
  cases seed with
  | none =>
    refine ⟨?_, ?_, ?_, ?_, ?_⟩ <;> simp [initState]
  | some r =>
    refine ⟨?_, ?_, ?_, ?_, ?_⟩
    · simp [initState]
    · simp [initState]
    · intro i
      simp [initState]
    · intro i
      simp [initState]
    · intro i hi
      have hic : i = closest_index := by simpa [initState] using hi
      rw [hic]
      exact closest_index_lt

theorem Inv_step {σ σ' : SchedState} (hInv : Inv σ) (h : Step σ σ') :
    Inv σ' := by
  obtain ⟨src, res, hcard, hsrc, heq⟩ := h
  obtain ⟨n1, n2, k1, k2, bd⟩ := hInv
  set ds := get_adjacent_unsolved_points src σ.solved_points with hds
  obtain ⟨e1, _, e3, e4, _, _⟩ := processBatch_fields res ds σ
  have hdsN : ds.Nodup := adjacent_nodup src σ.solved_points
  have hsuccN : (successes ds res).Nodup := List.Nodup.filter _ hdsN
  have hsucc_unsolved : ∀ i ∈ successes ds res, i ∉ σ.solved_points :=
    fun i hi => (adjacent_mem_elim (successes_subset hi).1).1
  have hsucc_lt : ∀ i ∈ successes ds res, i < grid_points.length :=
    fun i hi => (adjacent_mem_elim (successes_subset hi).1).2
  have hk1 := keys_filterMap res (fun i r => (i, r.theta)) (fun _ _ => rfl) ds
  have hk2 := keys_filterMap res (fun i r => (i, r.theta_prime)) (fun _ _ => rfl) ds
  subst heq
  refine ⟨?_, ?_, ?_, ?_, ?_⟩
  · rw [e3, List.map_append, hk1, List.nodup_append]
    exact ⟨n1, hsuccN, fun a ha hb => hsucc_unsolved a hb ((k1 a).mp ha)⟩
  · rw [e4, List.map_append, hk2, List.nodup_append]
    exact ⟨n2, hsuccN, fun a ha hb => hsucc_unsolved a hb ((k2 a).mp ha)⟩
  · intro i
    rw [e3, e1, List.map_append, hk1, List.mem_append, Finset.mem_union,
      List.mem_toFinset]
    exact or_congr (k1 i) Iff.rfl
  · intro i
    rw [e4, e1, List.map_append, hk2, List.mem_append, Finset.mem_union,
      List.mem_toFinset]
    exact or_congr (k2 i) Iff.rfl
  · intro i hi
    rw [e1, Finset.mem_union, List.mem_toFinset] at hi
    exact hi.elim (bd i) (hsucc_lt i)

theorem Inv_reach {σ σ' : SchedState} (hInv : Inv σ) (h : Reach σ σ') :
    Inv σ' := by
  induction h with
  | refl => exact hInv
  | tail _ hstep ih => exact Inv_step ih hstep

theorem initState_some_card (r : SolveOutput) :
    (initState (some r)).solved_points.card = 1 := by
  show ({closest_index} : Finset ℕ).card = 1
  exact Finset.card_singleton _

theorem initState_some_mem (r : SolveOutput) :
    closest_index ∈ (initState (some r)).solved_points := by
  show closest_index ∈ ({closest_index} : Finset ℕ)
  exact Finset.mem_singleton_self _

theorem initState_some_lt (r : SolveOutput) :
    (initState (some r)).solved_points.card < grid_points.length := by
  rw [initState_some_card, grid_points_length]
  norm_num

/-- C3: Throughout an entire build run (every state reachable from the
post-seed state), no grid index is recorded in the Solution Store more than
once — the write sequences of `theta_dict` and `theta_prime_dict` have no
repeated key — and the scheduler never dispatches a BVP solve for an index
already in the solved set: `get_adjacent_unsolved_points` filters out solved
indices, so every dispatched index is outside `solved_points`. -/
theorem claim_C3 (seed : Option SolveOutput) (σ : SchedState)
    (hreach : Reach (initState seed) σ) :
    ((σ.theta_log.map Prod.fst).Nodup ∧
     (σ.theta_prime_log.map Prod.fst).Nodup) ∧
    ∀ src i, i ∈ get_adjacent_unsolved_points src σ.solved_points →
      i ∉ σ.solved_points := by
  have hInv := Inv_reach (Inv_init seed) hreach
  exact ⟨⟨hInv.1, hInv.2.1⟩, fun src i hi => (adjacent_mem_elim hi).1⟩

theorem claim_C3_witness :
    Reach (initState (some seed0)) (initState (some seed0)) ∧
    ((((initState (some seed0)).theta_log.map Prod.fst).Nodup ∧
      ((initState (some seed0)).theta_prime_log.map Prod.fst).Nodup) ∧
     ∀ src i, i ∈ get_adjacent_unsolved_points src
         (initState (some seed0)).solved_points →
       i ∉ (initState (some seed0)).solved_points) :=
  ⟨Relation.ReflTransGen.refl,
   claim_C3 (some seed0) _ Relation.ReflTransGen.refl⟩

/-- C4 as stated claims the build loop terminates on every run, detecting a
stall after boundedly many empty iterations.  In fact the loop has no stall
detection at all: starting from the real post-seed state, if every dispatched
solve keeps reporting convergence failure, the loop revisits the same state
forever while `|Solved| = 1 < N`, an infinite run that never reaches the
termination condition and never reports a coverage gap. -/
theorem claim_C4_cex :
    ∃ f : ℕ → SchedState,
      f 0 = initState (some seed0) ∧
      (∀ n, Step (f n) (f (n + 1))) ∧
      ∀ n, (f n).solved_points.card < grid_points.length := by
  refine ⟨fun _ => initState (some seed0), rfl, ?_, fun _ => initState_some_lt seed0⟩
  intro n
  refine ⟨closest_index, fun _ => none, initState_some_lt seed0,
    initState_some_mem seed0, ?_⟩
  exact (processBatch_allFail _ _ _ fun i _ => rfl).symm

/-- C4 (amended): the build loop's only exit condition is full coverage
`|Solved| = N`; from any state with a nonempty solved set and `|Solved| < N`
the loop always has a next iteration (there is no bounded-empty-iteration
stall detection and no coverage-gap report), so a run in which dispatched
solves keep failing runs forever. -/
theorem claim_C4 (σ : SchedState) (hne : σ.solved_points.Nonempty)
    (hlt : σ.solved_points.card < grid_points.length) :
    ∃ σ', Step σ σ' := by
  obtain ⟨src, hsrc⟩ := hne
  exact ⟨processBatch σ (get_adjacent_unsolved_points src σ.solved_points)
    fun _ => none, src, fun _ => none, hlt, hsrc, rfl⟩

theorem claim_C4_witness :
    (initState (some seed0)).solved_points.Nonempty ∧
    (initState (some seed0)).solved_points.card < grid_points.length ∧
    ∃ σ', Step (initState (some seed0)) σ' :=
  have hne : (initState (some seed0)).solved_points.Nonempty :=
    ⟨closest_index, initState_some_mem seed0⟩
  ⟨hne, initState_some_lt seed0, claim_C4 _ hne (initState_some_lt seed0)⟩

/-- C5: Across scheduler iterations the solved set only grows (no index is
ever removed), its size is non-decreasing and never exceeds `N = W*W`
(`len(grid_points)`), and every index added by an iteration was dispatched as
an unsolved neighbor of the chosen source and had a successful BVP solver
result. -/
theorem claim_C5 (seed : Option SolveOutput) (σ σ' : SchedState) (src : ℕ)
    (res : ℕ → Option SolveOutput)
    (hreach : Reach (initState seed) σ)
    (hstep : SchedStep src res σ σ') :
    σ.solved_points ⊆ σ'.solved_points ∧
    σ.solved_points.card ≤ σ'.solved_points.card ∧
    σ'.solved_points.card ≤ grid_points.length ∧
    ∀ i ∈ σ'.solved_points, i ∉ σ.solved_points →
      i ∈ get_adjacent_unsolved_points src σ.solved_points ∧
        (res i).isSome := by
  obtain ⟨hcard, hsrc, heq⟩ := hstep
  have hInv' : Inv σ' :=
    Inv_step (Inv_reach (Inv_init seed) hreach) ⟨src, res, hcard, hsrc, heq⟩
  obtain ⟨e1, _, _, _, _, _⟩ := processBatch_fields res
    (get_adjacent_unsolved_points src σ.solved_points) σ
  subst heq
  have hsub : σ.solved_points ⊆ (processBatch σ
      (get_adjacent_unsolved_points src σ.solved_points) res).solved_points := by
    rw [e1]
    exact Finset.subset_union_left
  refine ⟨hsub, Finset.card_le_card hsub, ?_, ?_⟩
  · have hb := hInv'.2.2.2.2
    have hrange : (processBatch σ
        (get_adjacent_unsolved_points src σ.solved_points) res).solved_points
          ⊆ Finset.range grid_points.length :=
      fun i hi => Finset.mem_range.mpr (hb i hi)
    calc (processBatch σ
        (get_adjacent_unsolved_points src σ.solved_points) res).solved_points.card
        ≤ (Finset.range grid_points.length).card := Finset.card_le_card hrange
      _ = grid_points.length := Finset.card_range _
  · intro i hi hnew
    rw [e1, Finset.mem_union, List.mem_toFinset] at hi
    rcases hi with hi | hi
    · exact absurd hi hnew
    · exact ⟨(successes_subset hi).1, (successes_subset hi).2⟩

theorem claim_C5_witness :
    SchedStep closest_index (fun _ => none) (initState (some seed0))
        (processBatch (initState (some seed0))
          (get_adjacent_unsolved_points closest_index
            (initState (some seed0)).solved_points) fun _ => none) ∧
    (initState (some seed0)).solved_points ⊆
      (processBatch (initState (some seed0))
        (get_adjacent_unsolved_points closest_index
          (initState (some seed0)).solved_points) fun _ => none).solved_points :=
  ⟨⟨initState_some_lt seed0, initState_some_mem seed0, rfl⟩,
   (claim_C5 (some seed0) _ _ closest_index (fun _ => none)
      Relation.ReflTransGen.refl
      ⟨initState_some_lt seed0, initState_some_mem seed0, rfl⟩).1⟩

/-- C6: a BVP solver call that reports convergence failure (`solve_for_index`
returns `None`) contributes nothing to the shared build state: the failed
index stays unsolved (eligible for later retries from another neighbor), no
`theta`/`theta'` entry keyed by it is added, and when every call of the batch
fails the state is exactly as before the batch; the failure is absorbed by the
coordinator's `if result:` check rather than propagated as a fault. -/
theorem claim_C6 (σ σ' : SchedState) (src j : ℕ)
    (res : ℕ → Option SolveOutput)
    (hstep : SchedStep src res σ σ')
    (hj : j ∈ get_adjacent_unsolved_points src σ.solved_points)
    (hfail : res j = none) :
    j ∉ σ'.solved_points ∧
    (∀ e ∈ σ'.theta_log, e.1 = j → e ∈ σ.theta_log) ∧
    (∀ e ∈ σ'.theta_prime_log, e.1 = j → e ∈ σ.theta_prime_log) ∧
    ((∀ i ∈ get_adjacent_unsolved_points src σ.solved_points, res i = none) →
      σ' = σ) := by
  obtain ⟨hcard, hsrc, heq⟩ := hstep
  obtain ⟨e1, _, e3, e4, _, _⟩ := processBatch_fields res
    (get_adjacent_unsolved_points src σ.solved_points) σ
  subst heq
  refine ⟨?_, ?_, ?_, ?_⟩
  · rw [e1, Finset.mem_union, List.mem_toFinset]
    push_neg
    refine ⟨(adjacent_mem_elim hj).1, ?_⟩
    intro hjm
    have hs := (successes_subset hjm).2
    rw [hfail] at hs
    simp at hs
  · intro e he hekey
    rw [e3, List.mem_append] at he
    rcases he with he | he
    · exact he
    · exfalso
      rw [List.mem_filterMap] at he
      obtain ⟨i, _, hmap⟩ := he
      cases hri : res i with
      | none =>
        rw [hri] at hmap
        exact Option.noConfusion hmap
      | some r =>
        rw [hri] at hmap
        have he2 : (i, r.theta) = e := by simpa using hmap
        have hij : i = j := by rw [← hekey, ← he2]
        rw [hij, hfail] at hri
        exact Option.noConfusion hri
  · intro e he hekey
    rw [e4, List.mem_append] at he
    rcases he with he | he
    · exact he
    · exfalso
      rw [List.mem_filterMap] at he
      obtain ⟨i, _, hmap⟩ := he
      cases hri : res i with
      | none =>
        rw [hri] at hmap
        exact Option.noConfusion hmap
      | some r =>
        rw [hri] at hmap
        have he2 : (i, r.theta_prime) = e := by simpa using hmap
        have hij : i = j := by rw [← hekey, ← he2]
        rw [hij, hfail] at hri
        exact Option.noConfusion hri
  · intro hall
    exact processBatch_allFail σ _ res hall

theorem claim_C6_witness :
    SchedStep 0 (fun _ => none) stateA
        (processBatch stateA
          (get_adjacent_unsolved_points 0 stateA.solved_points)
          fun _ => none) ∧
    1 ∈ get_adjacent_unsolved_points 0 stateA.solved_points ∧
    1 ∉ (processBatch stateA
          (get_adjacent_unsolved_points 0 stateA.solved_points)
          fun _ => none).solved_points :=
  have hcard : stateA.solved_points.card < grid_points.length := by
    show ({0} : Finset ℕ).card < grid_points.length
    rw [Finset.card_singleton, grid_points_length]
    norm_num
  have hmem : 0 ∈ stateA.solved_points := by
    show (0 : ℕ) ∈ ({0} : Finset ℕ)
    exact Finset.mem_singleton_self _
  have hj : 1 ∈ get_adjacent_unsolved_points 0 stateA.solved_points := by
    decide
  ⟨⟨hcard, hmem, rfl⟩, hj,
   (claim_C6 stateA _ 0 1 (fun _ => none) ⟨hcard, hmem, rfl⟩ hj rfl).1⟩

theorem npCumsumAux_getLastD (l : List ℚ) :
    ∀ acc : ℚ, (npCumsumAux acc l).getLastD acc = acc + l.sum := by
  induction l with
  | nil =>
    intro acc
    simp [npCumsumAux]
  | cons x xs ih =>
    intro acc
    show ((acc + x) :: npCumsumAux (acc + x) xs).getLastD acc = acc + (x :: xs).sum
    rw [List.getLastD_cons, ih (acc + x), List.sum_cons]
    ring

theorem npCumsum_getLastD (l : List ℚ) : (npCumsum l).getLastD 0 = l.sum := by
  have h := npCumsumAux_getLastD l 0
  rw [zero_add] at h
  exact h

theorem recordedTip_eq_trapezoid (ys : List ℚ) :
    recordedTip ys = npTrapezoid sSamples ys := by
  show ((0 + npTrapezoid sSamples ys) :: npCumsumAux (0 + npTrapezoid sSamples ys) []).getLastD 0
      = npTrapezoid sSamples ys
  rw [List.getLastD_cons]
  show (0 + npTrapezoid sSamples ys : ℚ) = npTrapezoid sSamples ys
  rw [zero_add]

theorem npTrapezoid_zeros (xs : List ℚ) :
    ∀ k : ℕ, npTrapezoid xs (List.replicate k 0) = 0 := by
  induction xs with
  | nil =>
    intro k
    cases k with
    | zero => rfl
    | succ k =>
      cases k with
      | zero => rfl
      | succ k => rfl
  | cons x1 xs ih =>
    intro k
    cases xs with
    | nil =>
      cases k with
      | zero => rfl
      | succ k =>
        cases k with
        | zero => rfl
        | succ k => rfl
    | cons x2 rest =>
      cases k with
      | zero => rfl
      | succ k =>
        cases k with
        | zero => rfl
        | succ k =>
          show (x2 - x1) * (0 + 0) / 2
              + npTrapezoid (x2 :: rest) (List.replicate (k + 1) 0) = 0
          rw [ih (k + 1)]
          ring

theorem npTrapezoid_ones (xs : List ℚ) :
    ∀ x : ℚ, npTrapezoid (x :: xs) (List.replicate (xs.length + 1) 1)
      = xs.getLastD x - x := by
  induction xs with
  | nil =>
    intro x
    show (0 : ℚ) = List.getLastD [] x - x
    simp
  | cons y ys ih =>
    intro x
    show (y - x) * (1 + 1) / 2
        + npTrapezoid (y :: ys) (List.replicate (ys.length + 1) 1)
      = (y :: ys).getLastD x - x
    rw [ih y, List.getLastD_cons]
    ring

theorem sSamples_getD_zero : sSamples.getD 0 0 = 0 := by
  show (linspaceQ 0 1 500).getD 0 0 = 0
  rw [linspaceQ_getD 0 1 500 0 (by norm_num)]
  norm_num

theorem sSamples_getD_one : sSamples.getD 1 0 = 1 / 499 := by
  show (linspaceQ 0 1 500).getD 1 0 = 1 / 499
  rw [linspaceQ_getD 0 1 500 1 (by norm_num)]
  norm_num

theorem sSamples_length : sSamples.length = 500 := linspaceQ_length 0 1 500

theorem sSamples_getLastD : sSamples.getLastD 0 = 1 := by
  rw [List.getLastD_eq_getLast?, List.getLast?_eq_getElem?, sSamples_length]
  have h : sSamples[(499 : ℕ)]?.getD 0 = sSamples.getD 499 0 :=
    (List.getD_eq_getElem?_getD _ _ _).symm
  rw [show (500 - 1 : ℕ) = 499 from rfl, h]
  show (linspaceQ 0 1 500).getD 499 0 = 1
  rw [linspaceQ_getD 0 1 500 499 (by norm_num)]
  norm_num

theorem npTrapezoid_sSamples_ones :
    npTrapezoid sSamples (List.replicate 500 1) = 1 := by
  obtain ⟨s0, rest, hdecomp⟩ : ∃ a l, sSamples = a :: l := by
    cases hs : sSamples with
    | nil =>
      exfalso
      have hlen := sSamples_length
      rw [hs] at hlen
      simp at hlen
    | cons a l => exact ⟨a, l, rfl⟩
  have hrl : rest.length = 499 := by
    have hlen := sSamples_length
    rw [hdecomp] at hlen
    simpa using hlen
  have h1 := npTrapezoid_ones rest s0
  rw [hrl] at h1
  rw [hdecomp, show (500 : ℕ) = 499 + 1 from rfl, h1]
  have hlast : rest.getLastD s0 = 1 := by
    have hl := sSamples_getLastD
    rw [hdecomp, List.getLastD_cons] at hl
    exact hl
  have hhead : s0 = 0 := by
    have hh := sSamples_getD_zero
    rw [hdecomp] at hh
    exact hh
  rw [hlast, hhead]
  norm_num

/-- C9 claims the recorded tips are "a cumulative sum scaled by the arclength
step" evaluated at the final station.  The code instead records the
trapezoidal-rule integral `np.trapezoid(y, x=s)`.  On the realizable sample
list `cos(theta) = [1, 0, 0, ..., 0]` (`theta = [0, pi/2, ..., pi/2]`) the
recorded value is `1/998` while the claimed formula gives `1/499` (step =
station spacing `l/(M-1)`) or `1/500` (step = `l/M`) — different under either
reading. -/
theorem claim_C9_cex :
    recordedTip (1 :: List.replicate 499 0) ≠
        specTip (1 :: List.replicate 499 0) (1 / 499) ∧
      recordedTip (1 :: List.replicate 499 0) ≠
        specTip (1 :: List.replicate 499 0) (1 / 500) := by
  have hrec : recordedTip (1 :: List.replicate 499 0) = 1 / 998 := by
    rw [recordedTip_eq_trapezoid]
    obtain ⟨s0, s1, rest2, hdecomp⟩ : ∃ a b l, sSamples = a :: b :: l := by
      cases hs : sSamples with
      | nil =>
        exfalso
        have hlen := sSamples_length
        rw [hs] at hlen
        simp at hlen
      | cons a l =>
        cases hl : l with
        | nil =>
          exfalso
          have hlen := sSamples_length
          rw [hs, hl] at hlen
          simp at hlen
        | cons b l' => exact ⟨a, b, l', rfl⟩
    have h0 : s0 = 0 := by
      have hh := sSamples_getD_zero
      rw [hdecomp] at hh
      exact hh
    have h1 : s1 = 1 / 499 := by
      have hh := sSamples_getD_one
      rw [hdecomp] at hh
      exact hh
    rw [hdecomp]
    show (s1 - s0) * (1 + 0) / 2
        + npTrapezoid (s1 :: rest2) (List.replicate 499 0) = 1 / 998
    rw [npTrapezoid_zeros (s1 :: rest2) 499, h0, h1]
    norm_num
  have hspec : ∀ ds : ℚ, specTip (1 :: List.replicate 499 0) ds = ds := by
    intro ds
    show (npCumsum (1 :: List.replicate 499 0)).getLastD 0 * ds = ds
    rw [npCumsum_getLastD, List.sum_cons, List.sum_replicate, smul_zero,
      add_zero, one_mul]
  rw [hrec, hspec, hspec]
  constructor <;> norm_num

/-- C9 (amended): for every successfully solved grid point, the recorded tip
coordinate is `np.cumsum` of the scalar `np.trapezoid(y, x=s)` — identically
the trapezoidal-rule integral of the cosine/sine samples over the 500
arclength stations (which integrates constant samples exactly: the all-ones
samples integrate to `1`) — not a plain cumulative sum scaled by the
arclength step. -/
theorem claim_C9 (ys : List ℚ) :
    recordedTip ys = npTrapezoid sSamples ys ∧
    npTrapezoid sSamples (List.replicate 500 1) = 1 :=
  ⟨recordedTip_eq_trapezoid ys, npTrapezoid_sSamples_ones⟩

/-- C10: the runtime query path re-solves the BVP at the exact off-grid
`(h, v)` and uses the solver's output unconditionally: the outputs of
`Elastica_env.elastica` and of `elastica_solve` are built from the solution
samples only and are independent of the `success` flag, their return types
carry no failure channel, and two solvers that agree on samples but disagree
on convergence produce identical results — so a non-converged online solve
yields an ordinary-looking state and no failure signal reaches the caller. -/
theorem claim_C10 (cosTheta sinTheta : ℚ → ℚ) (h v : ℚ) (t tp : List ℚ)
    (b b' : Bool) (solver solver' : ℚ → ℚ → BvpResult) :
    elastica cosTheta sinTheta h v ⟨b, t, tp⟩ =
      elastica cosTheta sinTheta h v ⟨b', t, tp⟩ ∧
    (∀ h' v', (solver h' v').theta = (solver' h' v').theta →
        (solver h' v').theta_prime = (solver' h' v').theta_prime →
        elastica_solve solver h' v' = elastica_solve solver' h' v') := by
  constructor
  · rfl
  · intro h' v' e1 e2
    show ((solver h' v').theta, (solver h' v').theta_prime)
        = ((solver' h' v').theta, (solver' h' v').theta_prime)
    rw [e1, e2]

theorem claim_C10_witness :
    elastica (fun _ => 1) (fun _ => 0) 0 0 ⟨false, [0], [0]⟩ =
      elastica (fun _ => 1) (fun _ => 0) 0 0 ⟨true, [0], [0]⟩ :=
  (claim_C10 (fun _ => 1) (fun _ => 0) 0 0 [0] [0] false true
    (fun _ _ => ⟨false, [], []⟩) fun _ _ => ⟨true, [], []⟩).1

theorem natCast_num_toNat (n : ℕ) : ((n : ℚ)).num.toNat = n := by
  rw [Rat.num_natCast]
  simp

theorem decListQ_enc (xs r : List ℚ) :
    decListQ (encListQ xs ++ r) = some (xs, r) := by
  show (if (xs ++ r).length < ((xs.length : ℚ)).num.toNat then none
      else some ((xs ++ r).take ((xs.length : ℚ)).num.toNat,
        (xs ++ r).drop ((xs.length : ℚ)).num.toNat))
    = some (xs, r)
  rw [natCast_num_toNat, List.length_append, if_neg (by omega),
    List.take_left, List.drop_left]

theorem decPoint_enc (p : ℚ × ℚ) (r : List ℚ) :
    decPoint (encPoint p ++ r) = some (p, r) := rfl

theorem decEntry_enc (e : ℕ × List ℚ) (r : List ℚ) :
    decEntry (encEntry e ++ r) = some (e, r) := by
  show (match decListQ (encListQ e.2 ++ r) with
      | none => none
      | some (xs, rest') => some ((((e.1 : ℚ)).num.toNat, xs), rest'))
    = some (e, r)
  rw [decListQ_enc]
  show some ((((e.1 : ℚ)).num.toNat, e.2), r) = some (e, r)
  rw [natCast_num_toNat]

theorem decCount_enc {α : Type} (enc : α → List ℚ)
    (dec : List ℚ → Option (α × List ℚ))
    (hround : ∀ a r, dec (enc a ++ r) = some (a, r)) :
    ∀ (as : List α) (r : List ℚ),
      decCount dec as.length (encSeq enc as ++ r) = some (as, r) := by
  intro as
  induction as with
  | nil =>
    intro r
    rfl
  | cons a as ih =>
    intro r
    show decCount dec (as.length + 1) ((enc a ++ encSeq enc as) ++ r)
        = some (a :: as, r)
    rw [List.append_assoc]
    show (match dec (enc a ++ (encSeq enc as ++ r)) with
        | none => none
        | some (a', l') =>
          match decCount dec as.length l' with
          | none => none
          | some (as', l'') => some (a' :: as', l''))
      = some (a :: as, r)
    rw [hround a (encSeq enc as ++ r)]
    show (match decCount dec as.length (encSeq enc as ++ r) with
        | none => none
        | some (as', l'') => some (a :: as', l''))
      = some (a :: as, r)
    rw [ih r]

theorem decCounted_enc {α : Type} (enc : α → List ℚ)
    (dec : List ℚ → Option (α × List ℚ))
    (hround : ∀ a r, dec (enc a ++ r) = some (a, r))
    (as : List α) (r : List ℚ) :
    decCounted dec (encCounted enc as ++ r) = some (as, r) := by
  show decCount dec (((as.length : ℚ)).num.toNat) (encSeq enc as ++ r)
    = some (as, r)
  rw [natCast_num_toNat]
  exact decCount_enc enc dec hround as r

/-- C8: serializing the CheatSheet artifact and deserializing it reproduces
identical `grid_points`, an identical solved-index set (the key set of the
shape maps), and Shape arrays equal to the stored numeric precision — a
round-trip identity through the Persistence Layer. -/
theorem claim_C8 (d : CheatSheetData) :
    decCheatSheet (encCheatSheet d) = some d ∧
    ∃ d', decCheatSheet (encCheatSheet d) = some d' ∧
      d'.grid_points = d.grid_points ∧
      d'.theta_values.map Prod.fst = d.theta_values.map Prod.fst ∧
      d'.theta_values = d.theta_values ∧
      d'.theta_prime_values = d.theta_prime_values := by
  have hmain : decCheatSheet (encCheatSheet d) = some d := by
    show decCheatSheet (encCounted encPoint d.grid_points
      ++ encCounted encEntry d.theta_values
      ++ encCounted encEntry d.theta_prime_values) = some d
    rw [List.append_assoc]
    show (match decCounted decPoint (encCounted encPoint d.grid_points
          ++ (encCounted encEntry d.theta_values
            ++ encCounted encEntry d.theta_prime_values)) with
        | none => none
        | some (g, l1) =>
          match decCounted decEntry l1 with
          | none => none
          | some (t, l2) =>
            match decCounted decEntry l2 with
            | none => none
            | some (tp, l3) => if l3 = [] then some ⟨g, t, tp⟩ else none)
      = some d
    rw [decCounted_enc encPoint decPoint decPoint_enc]
    show (match decCounted decEntry (encCounted encEntry d.theta_values
          ++ encCounted encEntry d.theta_prime_values) with
        | none => none
        | some (t, l2) =>
          match decCounted decEntry l2 with
          | none => none
          | some (tp, l3) =>
            if l3 = [] then some ⟨d.grid_points, t, tp⟩ else none)
      = some d
    rw [decCounted_enc encEntry decEntry decEntry_enc]
    show (match decCounted decEntry (encCounted encEntry d.theta_prime_values)
          with
        | none => none
        | some (tp, l3) =>
          if l3 = [] then
            some ⟨d.grid_points, d.theta_values, tp⟩ else none)
      = some d
    rw [show encCounted encEntry d.theta_prime_values
        = encCounted encEntry d.theta_prime_values ++ [] from
      (List.append_nil _).symm]
    rw [decCounted_enc encEntry decEntry decEntry_enc]
    show (if ([] : List ℚ) = [] then
        some (⟨d.grid_points, d.theta_values, d.theta_prime_values⟩ :
          CheatSheetData)
      else none) = some d
    rw [if_pos rfl]
  exact ⟨hmain, d, hmain, rfl, rfl, rfl, rfl⟩

end Elastica

